import Mathlib

/-!
Verification of numeric::LimitedCombination (src/LimitedCombination.hpp)
against its specification.

The availability map std::map<AtomType, size_t> is embedded as an
association list of (atom, count) pairs; iteration order of a std::map is
ascending key order, which for the embedding means the list is assumed (and
in the theorems hypothesised) to be strictly sorted by key.  The underlying
walker numeric::Combination<CoreType> from numeric/Combinatorics.hpp is not
part of the sources, so it is modelled from the specification's contract.
-/

namespace Numeric

/-- Translation of numeric::Mode: interpretation of the requested
combination size (exact, minimum, or maximum). -/
inductive Mode where
  | EXACT
  | MIN
  | MAX
deriving DecidableEq, Repr

/-- Modelled from the spec: the missing underlying walker
numeric::Combination<CoreType> (declared in numeric/Combinatorics.hpp, which
is not among the sources).  Per the contract it is a cursor over the
complete, duplicate-free sequence of valid combinations of its item
multiset under the given size and mode; it is represented by that sequence
together with a cursor position. -/
structure Combination where
  combinations : List (List Nat)
  pos : Nat
deriving DecidableEq, Repr

/-- Modelled from the spec: whether a combination with n elements is
admitted under the given mode and requested size.  EXACT means exactly the
size, MIN at least the size, MAX at most the size; the worked example of
the spec (and the class documentation of LimitedCombination) shows that the
empty combination is never produced, so admissible sizes start at 1. -/
def Mode.sizeOk : Mode → Nat → Nat → Bool
  | Mode.EXACT, size, n => n == size
  | Mode.MIN, size, n => decide (1 ≤ n) && decide (size ≤ n)
  | Mode.MAX, size, n => decide (1 ≤ n) && decide (n ≤ size)

/-- Modelled from the spec: all choices of how many copies of each code to
take, given the per-code multiplicities. -/
def subCounts : List Nat → List (List Nat)
  | [] => [[]]
  | c :: rest =>
      (List.range (c + 1)).flatMap (fun k => (subCounts rest).map (fun t => k :: t))

/-- Modelled from the spec: the combination described by a per-code choice
vector, written out with each code repeated as often as chosen. -/
def countsToCombination (ks : List Nat) : List Nat :=
  ks.enum.flatMap (fun p => List.replicate p.2 p.1)

/-- Modelled from the spec: the per-code multiplicities of an item list,
for the codes 0 up to the maximal code occurring. -/
def codeCounts (items : List Nat) : List Nat :=
  (List.range (items.foldr max 0 + 1)).map (fun c => items.count c)

/-- Modelled from the spec: construction of the plain walker over an item
list; the enumeration sequence contains each availability-respecting
combination exactly once, filtered by the mode, and the cursor starts on
its first element. -/
def Combination.make (items : List Nat) (size : Nat) (mode : Mode) : Combination :=
  { combinations :=
      (subCounts (codeCounts items)).filterMap (fun ks =>
        if mode.sizeOk size ks.sum then some (countsToCombination ks) else none)
  , pos := 0 }

/-- Modelled from the spec: the walker's current combination; a read-only
access to the cursor. -/
def Combination.current (w : Combination) : List Nat :=
  w.combinations.getD w.pos []

/-- Modelled from the spec: the walker's current() call viewed as a state
transformer; it reads the cursor and leaves the walker unchanged. -/
def Combination.currentOp (w : Combination) : List Nat × Combination :=
  (w.current, w)

/-- Modelled from the spec: advance the cursor and report whether a further
combination exists; after exhaustion the cursor stays past the end so that
every later call keeps reporting false. -/
def Combination.next (w : Combination) : Bool × Combination :=
  if w.pos + 1 < w.combinations.length then
    (true, { w with pos := w.pos + 1 })
  else
    (false, { w with pos := w.combinations.length })

/-- Translation of the state of numeric::LimitedCombination: the retained
availability map, the code-to-atom table, the encoded item list, the owned
walker, and the (clamped) size and mode. -/
structure LimitedCombination (α : Type) where
  mAtomTypeAvailablilityMap : List (α × Nat)
  mAtomTypeList : List α
  mItems : List Nat
  mpItemCombinationGenerator : Combination
  mSize : Nat
  mMode : Mode
deriving DecidableEq, Repr

/-- Translation of the loop of LimitedCombination::prepare: walk the
availability map in its iteration order, append each key to the atom-type
list, assign it the next code, and insert that code's copies at the front
of the item list. -/
def prepareLoop {α : Type} :
    List (α × Nat) → Nat → List α → List Nat → List α × List Nat
  | [], _, atomTypeList, items => (atomTypeList, items)
  | (a, n) :: rest, currentType, atomTypeList, items =>
      prepareLoop rest (currentType + 1) (atomTypeList ++ [a])
        (List.replicate n currentType ++ items)

/-- Translation of LimitedCombination::prepare without the final walker
construction: returns the atom-type list and the encoded item list. -/
def prepare {α : Type} (countMap : List (α × Nat)) : List α × List Nat :=
  prepareLoop countMap 0 [] []

/-- Translation of LimitedCombination::totalNumberOfAtoms: the sum of the
occurrence counts of the map. -/
def totalNumberOfAtoms {α : Type} (countMap : List (α × Nat)) : Nat :=
  countMap.foldl (fun count p => count + p.2) 0

/-- Translation of LimitedCombination::mapToAtomTypes: decode a combination
of codes element-by-element through the code-to-atom table.  The C++ indexes
the table without a bounds check; the embedding uses a lookup with a default
value for the out-of-range case. -/
def mapToAtomTypes {α : Type} [Inhabited α]
    (atomTypeList : List α) (combination : List Nat) : List α :=
  combination.map (fun c => atomTypeList.getD c default)

/-- Bounds-checked variant of mapToAtomTypes: returns none as soon as some
code falls outside the table.  Used to state that the unchecked lookups of
the source stay in range. -/
def mapToAtomTypesChecked {α : Type}
    (atomTypeList : List α) (combination : List Nat) : Option (List α) :=
  combination.mapM (fun c => atomTypeList[c]?)

/-- Translation of the LimitedCombination constructor: validate the
availability map, clamp the requested size to the total atom count, and
prepare the atom-type list, the encoded items and the underlying walker.
The C++ throws std::invalid_argument; the embedding returns that failure in
an Except. -/
def construct {α : Type} (countMap : List (α × Nat)) (size : Nat) (mode : Mode) :
    Except String (LimitedCombination α) :=
  let totalCount := totalNumberOfAtoms countMap
  if countMap.isEmpty || totalCount == 0 then
    Except.error
      "numeric::LimitedCombination no atoms to generate combination from -- check for empty map"
  else
    let mSize := if size > totalCount then totalCount else size
    let p := prepare countMap
    Except.ok
      { mAtomTypeAvailablilityMap := countMap
      , mAtomTypeList := p.1
      , mItems := p.2
      , mpItemCombinationGenerator := Combination.make p.2 mSize mode
      , mSize := mSize
      , mMode := mode }

/-- Translation of LimitedCombination::current: decode the walker's current
combination through the code-to-atom table and sort it ascending by the
atom type's ordering. -/
def LimitedCombination.current {α : Type} [LinearOrder α] [Inhabited α]
    (g : LimitedCombination α) : List α :=
  List.insertionSort (· ≤ ·)
    (mapToAtomTypes g.mAtomTypeList g.mpItemCombinationGenerator.current)

/-- Translation of LimitedCombination::current viewed as a state
transformer: the walker's current() is called on the owned walker and the
resulting generator state is returned along with the decoded, sorted
combination. -/
def LimitedCombination.callCurrent {α : Type} [LinearOrder α] [Inhabited α]
    (g : LimitedCombination α) : List α × LimitedCombination α :=
  let r := g.mpItemCombinationGenerator.currentOp
  let g' := { g with mpItemCombinationGenerator := r.2 }
  (List.insertionSort (· ≤ ·) (mapToAtomTypes g'.mAtomTypeList r.1), g')

/-- Translation of LimitedCombination::next: delegate to the walker's
next(), returning its answer and the updated generator state. -/
def LimitedCombination.next {α : Type} (g : LimitedCombination α) :
    Bool × LimitedCombination α :=
  let r := g.mpItemCombinationGenerator.next
  (r.1, { g with mpItemCombinationGenerator := r.2 })

/-- Translation of the documented usage loop (do current(); while next()):
collect current(), advance with next(), stop once next() reports false; the
fuel argument bounds the recursion. -/
def enumFrom {α : Type} [LinearOrder α] [Inhabited α] :
    LimitedCombination α → Nat → List (List α)
  | _, 0 => []
  | g, fuel + 1 =>
      g.current ::
        (let r := g.next
         if r.1 then enumFrom r.2 fuel else [])

/-- Full enumeration of a constructed generator: run the usage loop with
enough fuel to reach exhaustion. -/
def enumerate {α : Type} [LinearOrder α] [Inhabited α]
    (g : LimitedCombination α) : List (List α) :=
  enumFrom g g.mpItemCombinationGenerator.combinations.length

/-- Folding the count sum from any accumulator adds the sum of the counts. -/
theorem totalNumberOfAtoms_foldl {α : Type} (l : List (α × Nat)) (n : Nat) :
    List.foldl (fun count p => count + p.2) n l = n + (l.map Prod.snd).sum := by
  induction l generalizing n with
  | nil => simp
  | cons p rest ih => simp [List.foldl_cons, ih, Nat.add_assoc]

/-- C6: totalNumberOfAtoms returns the sum of all counts of the map; it is
a pure total function with no failure mode, and it returns 0 on the empty
map. -/
theorem totalNumberOfAtoms_is_sum {α : Type} (countMap : List (α × Nat)) :
    totalNumberOfAtoms countMap = (countMap.map Prod.snd).sum ∧
      totalNumberOfAtoms ([] : List (α × Nat)) = 0 := by
  refine ⟨?_, rfl⟩
  simpa using totalNumberOfAtoms_foldl countMap 0

/-- C3: construction fails with the invalid-configuration error exactly
when the availability map is empty or its counts sum to zero; in every
other case it succeeds, so this is the only caller-visible failure. -/
theorem construct_error_iff {α : Type} (countMap : List (α × Nat)) (size : Nat)
    (mode : Mode) :
    (∃ e, construct countMap size mode = Except.error e) ↔
      countMap = [] ∨ totalNumberOfAtoms countMap = 0 := by
  constructor
  · rintro ⟨e, he⟩
    simp only [construct] at he
    split at he
    · rename_i hcond
      simpa [List.isEmpty_iff] using hcond
    · simp at he
  · intro h
    refine
      ⟨"numeric::LimitedCombination no atoms to generate combination from -- check for empty map",
        ?_⟩
    simp only [construct]
    rw [if_pos]
    rcases h with h | h
    · simp [h]
    · simp [h]

/-- C2: requesting a size larger than the total number of atoms does not
fail and produces exactly the same generator state as requesting the total
itself, hence the same enumeration sequence. -/
theorem construct_clamps {α : Type} (countMap : List (α × Nat)) (size : Nat)
    (mode : Mode) (hne : countMap ≠ []) (hpos : 0 < totalNumberOfAtoms countMap)
    (hgt : totalNumberOfAtoms countMap < size) :
    (∃ g, construct countMap size mode = Except.ok g) ∧
      construct countMap size mode =
        construct countMap (totalNumberOfAtoms countMap) mode := by
  have hcond : (countMap.isEmpty || totalNumberOfAtoms countMap == 0) = false := by
    simp [List.isEmpty_iff, hne]
    omega
  constructor
  · cases hc : construct countMap size mode with
    | error e =>
        exfalso
        simp [construct, hcond] at hc
    | ok g => exact ⟨g, rfl⟩
  · simp only [construct, hcond]
    rw [if_pos hgt, if_neg (lt_irrefl _)]

/-- The first component of the prepare loop appends the map's keys, in
iteration order, to the accumulated atom-type list. -/
theorem prepareLoop_fst {α : Type} (l : List (α × Nat)) (c : Nat) (al : List α)
    (it : List Nat) :
    (prepareLoop l c al it).1 = al ++ l.map Prod.fst := by
  induction l generalizing c al it with
  | nil => simp [prepareLoop]
  | cons p rest ih =>
      cases p with
      | mk a n => simp [prepareLoop, ih]

/-- The item list built by the prepare loop grows by the sum of the counts. -/
theorem prepareLoop_snd_length {α : Type} (l : List (α × Nat)) (c : Nat) (al : List α)
    (it : List Nat) :
    (prepareLoop l c al it).2.length = (l.map Prod.snd).sum + it.length := by
  induction l generalizing c al it with
  | nil => simp [prepareLoop]
  | cons p rest ih =>
      cases p with
      | mk a n =>
          rw [prepareLoop, ih]
          simp
          omega

/-- Codes below the running code counter are not added by the prepare loop. -/
theorem prepareLoop_count_lt {α : Type} (l : List (α × Nat)) (c : Nat) (al : List α)
    (it : List Nat) (x : Nat) (hx : x < c) :
    (prepareLoop l c al it).2.count x = it.count x := by
  induction l generalizing c al it with
  | nil => rfl
  | cons p rest ih =>
      cases p with
      | mk a n =>
          rw [prepareLoop, ih _ _ _ (Nat.lt_succ_of_lt hx)]
          rw [List.count_append, List.count_replicate]
          have : (c == x) = false := by
            simp
            omega
          rw [this]
          simp

/-- The prepare loop inserts the count of the i-th remaining map entry as
the multiplicity of code c + i. -/
theorem prepareLoop_count_get {α : Type} (l : List (α × Nat)) (c : Nat) (al : List α)
    (it : List Nat) (i : Nat) (hi : i < l.length) :
    (prepareLoop l c al it).2.count (c + i) = (l.get ⟨i, hi⟩).2 + it.count (c + i) := by
  induction l generalizing c al it i with
  | nil => exact absurd hi (by simp)
  | cons p rest ih =>
      cases p with
      | mk a n =>
          cases i with
          | zero =>
              rw [prepareLoop, prepareLoop_count_lt _ _ _ _ _ (by omega)]
              simp
          | succ j =>
              rw [prepareLoop]
              have harith : c + (j + 1) = (c + 1) + j := by omega
              rw [harith, ih _ _ _ j (by simpa using hi)]
              rw [List.count_append, List.count_replicate]
              have : (c == c + 1 + j) = false := by
                simp
                omega
              rw [this]
              simp

/-- Every code in the item list built by the prepare loop either comes from
the initial accumulator or lies in the code range of the walked entries. -/
theorem prepareLoop_snd_mem {α : Type} (l : List (α × Nat)) (c : Nat) (al : List α)
    (it : List Nat) (x : Nat) (hx : x ∈ (prepareLoop l c al it).2) :
    x ∈ it ∨ (c ≤ x ∧ x < c + l.length) := by
  induction l generalizing c al it with
  | nil => exact Or.inl hx
  | cons p rest ih =>
      cases p with
      | mk a n =>
          rw [prepareLoop] at hx
          rcases ih _ _ _ hx with hmem | hrange

          · rw [List.mem_append] at hmem
            rcases hmem with hrep | hit
            · have := List.eq_of_mem_replicate hrep
              subst this
              right
              simp
            · exact Or.inl hit
          · right
            simp at hrange ⊢
            omega

/-- A successful construction stores the prepared atom-type list and item
list in the generator state. -/
theorem construct_ok_fields {α : Type} {countMap : List (α × Nat)} {size : Nat}
    {mode : Mode} {g : LimitedCombination α}
    (h : construct countMap size mode = Except.ok g) :
    g.mAtomTypeList = (prepare countMap).1 ∧ g.mItems = (prepare countMap).2 := by
  simp only [construct] at h
  split at h
  · simp at h
  · simp only [Except.ok.injEq] at h
    subst h
    exact ⟨rfl, rfl⟩

/-- C4: for an availability map given in ascending key order (the iteration
order of a std::map), construction builds the code-to-atom table as exactly
the key sequence in that order, so code i is held by the i-th smallest key;
the table is strictly sorted and duplicate-free, making the assignment
bijective, and it is a deterministic function of the map. -/
theorem construct_code_assignment {α : Type} [LinearOrder α]
    (countMap : List (α × Nat)) (size : Nat) (mode : Mode) (g : LimitedCombination α)
    (hsorted : countMap.Pairwise (fun p q => p.1 < q.1))
    (h : construct countMap size mode = Except.ok g) :
    g.mAtomTypeList = countMap.map Prod.fst ∧
      g.mAtomTypeList.Pairwise (· < ·) ∧ g.mAtomTypeList.Nodup := by
  have hfield := (construct_ok_fields h).1
  have hlist : g.mAtomTypeList = countMap.map Prod.fst := by
    rw [hfield]
    simpa [prepare] using prepareLoop_fst countMap 0 [] []
  have hpair : g.mAtomTypeList.Pairwise (· < ·) := by
    rw [hlist, List.pairwise_map]
    exact hsorted
  exact ⟨hlist, hpair, hpair.imp ne_of_lt⟩

/-- C5: the encoded item list built at construction has length equal to the
total number of atoms, and contains code i exactly as often as the count of
the i-th map entry; being computed by a function of the map, it is
deterministic. -/
theorem construct_items_encoding {α : Type} (countMap : List (α × Nat)) (size : Nat)
    (mode : Mode) (g : LimitedCombination α)
    (h : construct countMap size mode = Except.ok g) :
    g.mItems.length = totalNumberOfAtoms countMap ∧
      ∀ i (hi : i < countMap.length), g.mItems.count i = (countMap.get ⟨i, hi⟩).2 := by
  have hfield := (construct_ok_fields h).2
  constructor
  · rw [hfield]
    have hlen := prepareLoop_snd_length countMap 0 ([] : List α) []
    have hsum := (totalNumberOfAtoms_is_sum countMap).1
    simp [prepare] at hlen ⊢
    omega
  · intro i hi
    rw [hfield]
    have hcount := prepareLoop_count_get countMap 0 ([] : List α) [] i hi
    simpa [prepare] using hcount

/-- Helper for C10: when each code of a combination is below the table
length, the bounds-checked decoding succeeds and returns exactly the
unchecked decoding. -/
theorem mapToAtomTypesChecked_eq_some {α : Type} [Inhabited α] (atomTypeList : List α) :
    ∀ comb : List Nat, (∀ c ∈ comb, c < atomTypeList.length) →
      mapToAtomTypesChecked atomTypeList comb =
        some (mapToAtomTypes atomTypeList comb) := by
  intro comb
  induction comb with
  | nil => intro _; rfl
  | cons c rest ih =>
      intro hb
      have hc : c < atomTypeList.length := hb c (by simp)
      have hrest := ih (fun x hx => hb x (by simp [hx]))
      simp only [mapToAtomTypesChecked, List.mapM_cons] at hrest ⊢
      rw [List.getElem?_eq_getElem hc, hrest]
      simp [mapToAtomTypes, List.getD_eq_getElem?_getD, List.getElem?_eq_getElem hc]

/-- C10: every code in the encoded item list built at construction is
strictly below the length of the code-to-atom table, so whenever the walker
emits only codes occurring in that list, every unchecked table lookup
performed by mapToAtomTypes is in bounds: the bounds-checked decoding
succeeds and agrees with the unchecked one, i.e. the out-of-range case is
unreachable. -/
theorem decode_in_bounds {α : Type} [Inhabited α] (countMap : List (α × Nat))
    (size : Nat) (mode : Mode) (g : LimitedCombination α) (comb : List Nat)
    (h : construct countMap size mode = Except.ok g)
    (hc : ∀ c ∈ comb, c ∈ g.mItems) :
    (∀ c ∈ comb, c < g.mAtomTypeList.length) ∧
      mapToAtomTypesChecked g.mAtomTypeList comb =
        some (mapToAtomTypes g.mAtomTypeList comb) := by
  obtain ⟨hlist, hitems⟩ := construct_ok_fields h
  have hlen : g.mAtomTypeList.length = countMap.length := by
    rw [hlist]
    have := prepareLoop_fst countMap 0 ([] : List α) []
    simp [prepare, this]
  have hbound : ∀ c ∈ comb, c < g.mAtomTypeList.length := by
    intro c hcm
    have hmem : c ∈ (prepareLoop countMap 0 ([] : List α) []).2 := by
      rw [← prepare]
      rw [← hitems]
      exact hc c hcm
    rcases prepareLoop_snd_mem countMap 0 [] [] c hmem with hnil | hrange
    · simp at hnil
    · rw [hlen]
      omega
  exact ⟨hbound, mapToAtomTypesChecked_eq_some g.mAtomTypeList comb hbound⟩

/-- Running example: the availability map A:2, B:1, C:1 of the
documentation, with the atoms A, B, C encoded as the naturals 0, 1, 2. -/
def exMap : List (Nat × Nat) := [(0, 2), (1, 1), (2, 1)]

/-- The generator state that construct builds from exMap with size 2 and
mode MAX. -/
def exG : LimitedCombination Nat :=
  { mAtomTypeAvailablilityMap := [(0, 2), (1, 1), (2, 1)]
  , mAtomTypeList := [0, 1, 2]
  , mItems := [2, 1, 0, 0]
  , mpItemCombinationGenerator :=
      { combinations := [[2], [1], [1, 2], [0], [0, 2], [0, 1], [0, 0]], pos := 0 }
  , mSize := 2
  , mMode := Mode.MAX }

/-- A generator over the single-atom map A:1 with size 1 and mode MAX,
positioned on its only combination. -/
def exSingle : LimitedCombination Nat :=
  { mAtomTypeAvailablilityMap := [(0, 1)]
  , mAtomTypeList := [0]
  , mItems := [0]
  , mpItemCombinationGenerator := { combinations := [[0]], pos := 0 }
  , mSize := 1
  , mMode := Mode.MAX }

/-- The exhausted state reached from exSingle after next() returned false. -/
def exSingleDone : LimitedCombination Nat :=
  { exSingle with mpItemCombinationGenerator := { combinations := [[0]], pos := 1 } }

/-- C1: for every successfully constructed generator, current() returns the
walker's code sequence decoded through the code-to-atom table and then
sorted, so the returned sequence is sorted ascending by the atom type's
ordering. -/
theorem current_sorted {α : Type} [LinearOrder α] [Inhabited α]
    (countMap : List (α × Nat)) (size : Nat) (mode : Mode) (g : LimitedCombination α)
    (_h : construct countMap size mode = Except.ok g) :
    List.Sorted (· ≤ ·) g.current :=
  List.sorted_insertionSort (· ≤ ·) _

/-- Witness for C1 on the running example. -/
theorem current_sorted_witness : List.Sorted (· ≤ ·) exG.current :=
  current_sorted exMap 2 Mode.MAX exG rfl

/-- Witness for C2: requesting size 10 from a map holding 3 atoms in total
succeeds and equals the construction with size 3. -/
theorem construct_clamps_witness :
    (∃ g, construct [((0 : Nat), 2), (1, 1)] 10 Mode.EXACT = Except.ok g) ∧
      construct [((0 : Nat), 2), (1, 1)] 10 Mode.EXACT =
        construct [((0 : Nat), 2), (1, 1)]
          (totalNumberOfAtoms [((0 : Nat), 2), (1, 1)]) Mode.EXACT :=
  construct_clamps [((0 : Nat), 2), (1, 1)] 10 Mode.EXACT (by decide) (by decide)
    (by decide)

/-- Witness for C4 on the running example. -/
theorem construct_code_assignment_witness :
    exG.mAtomTypeList = exMap.map Prod.fst ∧
      exG.mAtomTypeList.Pairwise (· < ·) ∧ exG.mAtomTypeList.Nodup :=
  construct_code_assignment exMap 2 Mode.MAX exG (by decide) rfl

/-- Witness for C5 on the running example: four encoded items, and atom 0
(count 2 in the map) appears twice as code 0. -/
theorem construct_items_encoding_witness :
    exG.mItems.length = totalNumberOfAtoms exMap ∧ exG.mItems.count 0 = 2 :=
  ⟨(construct_items_encoding exMap 2 Mode.MAX exG rfl).1,
   (construct_items_encoding exMap 2 Mode.MAX exG rfl).2 0 (by decide)⟩

/-- Witness for C10 on the running example, decoding the combination with
codes 0 and 1. -/
theorem decode_in_bounds_witness :
    mapToAtomTypesChecked exG.mAtomTypeList [0, 1] =
      some (mapToAtomTypes exG.mAtomTypeList [0, 1]) :=
  (decode_in_bounds exMap 2 Mode.MAX exG [0, 1] rfl (by decide)).2

/-- C7: for availability A:2, B:1, C:1 (atoms encoded 0, 1, 2), size 2 and
mode MAX, the full enumeration yields exactly the seven sorted combinations
A; B; C; A,A; A,B; A,C; B,C as a set, none exceeding any availability and
in particular neither B,B nor C,C. -/
theorem enumeration_scenario :
    construct exMap 2 Mode.MAX = Except.ok exG ∧
      (enumerate exG).Perm [[0], [1], [2], [0, 0], [0, 1], [0, 2], [1, 2]] ∧
      (enumerate exG).length = 7 ∧
      (∀ comb ∈ enumerate exG,
        comb.count 0 ≤ 2 ∧ comb.count 1 ≤ 1 ∧ comb.count 2 ≤ 1) ∧
      [1, 1] ∉ enumerate exG ∧ [2, 2] ∉ enumerate exG := by
  refine ⟨rfl, by decide, by decide, by decide, by decide, by decide⟩

/-- C8: current() has no side effect on the generator: called as a state
transformer it returns the state unchanged, a repeated call returns an
equal sequence, and the returned value is the pure current() value. -/
theorem current_no_side_effects {α : Type} [LinearOrder α] [Inhabited α]
    (g : LimitedCombination α) :
    g.callCurrent.2 = g ∧
      (g.callCurrent.2).callCurrent.1 = g.callCurrent.1 ∧
      g.callCurrent.1 = g.current :=
  ⟨rfl, rfl, rfl⟩

/-- C9: exhaustion is terminal: once next() has returned false, every
subsequent call to next() returns false as well. -/
theorem next_terminal {α : Type} (g g' : LimitedCombination α)
    (h : g.next = (false, g')) : g'.next.1 = false := by
  simp only [LimitedCombination.next, Combination.next] at h ⊢
  by_cases hlt :
      g.mpItemCombinationGenerator.pos + 1 <
        g.mpItemCombinationGenerator.combinations.length
  · rw [if_pos hlt] at h
    simp at h
  · rw [if_neg hlt] at h
    simp only [Prod.mk.injEq] at h
    obtain ⟨-, h2⟩ := h
    subst h2
    simp

/-- Witness for C9: the single-combination generator exhausts after one
next(), and keeps answering false. -/
theorem next_terminal_witness : exSingleDone.next.1 = false :=
  next_terminal exSingle exSingleDone (by decide)

end Numeric
